import Mathlib

/-!
Verification of the biochar dye-adsorption ML pipeline
(`src/unnamed/part_000` = CatBoost script, `src/AdaBoost.ipynb`, `src/LGBM.ipynb`).

All three scripts share the same structure: load the tabular dataset, scale
all features with `StandardScaler().fit_transform(X)` on the full matrix,
split with `train_test_split(..., test_size=0.2, random_state=1)`, tune with
`BayesSearchCV`, refit the tuned model, then run a "Model Evaluation Loop"
over a `KFold(n_splits=5, shuffle=True, random_state=1)` object, appending
six metric columns per fold.

Datasets are embedded by their row indices `0..n-1`; feature rows and targets
are rational-valued.  The library partitioners (`KFold`, `train_test_split`)
are modelled as deterministic seeded shuffles followed by the exact fold-size
and mask arithmetic sklearn uses; the model-based optimizer (`BayesSearchCV`)
and the backend regressors (`fit`/`predict`) are opaque external
collaborators, modelled by their constructor arguments as written in the
scripts and by abstract functions of the data they are given.
-/

namespace BiocharCV

/-- One step of a linear-congruential generator, standing in for the seeded
pseudo-random stream that `numpy` provides: a fixed deterministic function of
the current state. -/
def lcg (s : Nat) : Nat := (s * 1103515245 + 12345) % 2147483648

/-- Seeded shuffle of a list: repeatedly pick the element at position
`stream mod length` and recurse on the remainder with the advanced stream
(the fuel argument only bounds the recursion depth).  This models the numpy
seeded permutation as a deterministic function of the seed; the exact
permutation differs from MT19937 but all structural properties (it is a
permutation, determinism in the seed) are the same. -/
def shuffleAux : Nat → Nat → List Nat → List Nat
  | 0, _, _ => []
  | fuel + 1, s, l =>
    if h : l = [] then []
    else
      have hlen : 0 < l.length := List.length_pos.mpr h
      let v := l.get ⟨lcg s % l.length, Nat.mod_lt _ hlen⟩
      v :: shuffleAux fuel (lcg s) (l.erase v)

/-- The seeded permutation of the index range `0..n-1`. -/
def shuffle (seed n : Nat) : List Nat := shuffleAux n (lcg seed) (List.range n)

theorem shuffleAux_perm : ∀ (fuel s : Nat) (l : List Nat), l.length ≤ fuel →
    (shuffleAux fuel s l).Perm l := by
  intro fuel
  induction fuel with
  | zero =>
    intro s l h
    have hl : l = [] := List.eq_nil_of_length_eq_zero (Nat.le_zero.mp h)
    simp [shuffleAux, hl]
  | succ m ih =>
    intro s l h
    rw [shuffleAux]
    split
    · simp_all
    · next hne =>
      have hlen : 0 < l.length := List.length_pos.mpr hne
      have hv : l.get ⟨lcg s % l.length, Nat.mod_lt _ hlen⟩ ∈ l := l.get_mem _ _
      have herase : (l.erase (l.get ⟨lcg s % l.length, Nat.mod_lt _ hlen⟩)).length ≤ m := by
        rw [List.length_erase_of_mem hv]
        omega
      exact ((ih (lcg s) _ herase).cons _).trans (List.perm_cons_erase hv).symm

theorem shuffle_perm (seed n : Nat) : (shuffle seed n).Perm (List.range n) :=
  shuffleAux_perm _ _ _ (by rw [List.length_range])

theorem shuffle_length (seed n : Nat) : (shuffle seed n).length = n := by
  simpa using (shuffle_perm seed n).length_eq

theorem shuffle_nodup (seed n : Nat) : (shuffle seed n).Nodup :=
  (shuffle_perm seed n).nodup_iff.mpr (List.nodup_range _)

theorem mem_shuffle (seed n i : Nat) : i ∈ shuffle seed n ↔ i < n := by
  rw [(shuffle_perm seed n).mem_iff, List.mem_range]

/-- Fold sizes of `sklearn.model_selection.KFold` on `n` samples with `k`
splits: every fold has `n / k` test samples and the first `n mod k` folds get
one extra. -/
def foldSizes (n k : Nat) : List Nat :=
  (List.range k).map (fun j => n / k + if j < n % k then 1 else 0)

/-- Cut a list into consecutive chunks of the given sizes. -/
def chunksAux : List Nat → List Nat → List (List Nat)
  | [], _ => []
  | sz :: rest, l => l.take sz :: chunksAux rest (l.drop sz)

/-- The `k` blocks of shuffled indices that `KFold(n_splits=k, shuffle=True,
random_state=seed).split` carves the permuted index range into; block `j` is
the set of test indices of fold `j` (before the sorting mask is applied). -/
def kfoldTestChunks (n k seed : Nat) : List (List Nat) :=
  chunksAux (foldSizes n k) (shuffle seed n)

/-- Test indices of fold `j`, in ascending order: `BaseCrossValidator.split`
materialises the test block as a boolean mask over `arange(n)`. -/
def kfTest (n k seed j : Nat) : List Nat :=
  (List.range n).filter (fun i => decide (i ∈ ((kfoldTestChunks n k seed).getD j [])))

/-- Train indices of fold `j`: the complement mask over `arange(n)`. -/
def kfTrain (n k seed j : Nat) : List Nat :=
  (List.range n).filter (fun i => decide (i ∉ ((kfoldTestChunks n k seed).getD j [])))

/-- The full sequence of `(train_index, test_index)` pairs yielded by one call
of `kf.split` on `n` samples. -/
def kfoldSplit (n k seed : Nat) : List (List Nat × List Nat) :=
  (List.range k).map (fun j => (kfTrain n k seed j, kfTest n k seed j))

theorem foldSizes_length (n k : Nat) : (foldSizes n k).length = k := by
  simp [foldSizes]

theorem foldSizes_sum (n k : Nat) (hk : 0 < k) : (foldSizes n k).sum = n := by
  have hsplit : ∀ m, ((List.range m).map
      (fun j => n / k + if j < n % k then 1 else 0)).sum
      = m * (n / k) + ((List.range m).map (fun j => if j < n % k then 1 else 0)).sum := by
    intro m
    induction m with
    | zero => simp
    | succ m ih => simp [List.range_succ, ih]; ring
  have hones : ∀ m, ((List.range m).map (fun j => if j < n % k then 1 else 0)).sum
      = min m (n % k) := by
    intro m
    induction m with
    | zero => simp
    | succ m ih =>
      rw [List.range_succ]
      by_cases hm : m < n % k
      · simp [ih, hm]
        omega
      · simp [ih, hm]
        omega
  rw [foldSizes, hsplit, hones]
  have hmod : n % k < k := Nat.mod_lt _ hk
  have hmin : min k (n % k) = n % k := by omega
  rw [hmin]
  exact Nat.div_add_mod n k

theorem chunksAux_length (szs : List Nat) (l : List Nat) :
    (chunksAux szs l).length = szs.length := by
  induction szs generalizing l with
  | nil => simp [chunksAux]
  | cons sz rest ih => simp [chunksAux, ih]

theorem chunksAux_flatten (szs : List Nat) (l : List Nat) (h : l.length = szs.sum) :
    (chunksAux szs l).flatten = l := by
  induction szs generalizing l with
  | nil =>
    simp at h
    simp [chunksAux, h]
  | cons sz rest ih =>
    simp [chunksAux]
    rw [ih]
    · exact List.take_append_drop _ _
    · simp at h ⊢
      omega

theorem chunksAux_getD_length (szs : List Nat) (l : List Nat) (j : Nat)
    (hj : j < szs.length) (hsum : szs.sum ≤ l.length) :
    ((chunksAux szs l).getD j []).length = szs.getD j 0 := by
  induction szs generalizing l j with
  | nil => simp at hj
  | cons sz rest ih =>
    cases j with
    | zero =>
      simp [chunksAux]
      simp at hsum
      omega
    | succ j =>
      simp only [chunksAux, List.getD_cons_succ]
      apply ih
      · simpa using hj
      · simp at hsum ⊢
        omega

theorem kfoldTestChunks_length (n k seed : Nat) : (kfoldTestChunks n k seed).length = k := by
  rw [kfoldTestChunks, chunksAux_length, foldSizes_length]

theorem kfoldTestChunks_flatten (n k seed : Nat) (hk : 0 < k) :
    (kfoldTestChunks n k seed).flatten = shuffle seed n := by
  rw [kfoldTestChunks, chunksAux_flatten]
  rw [shuffle_length, foldSizes_sum n k hk]

theorem kfoldTestChunks_nodup_disjoint (n k seed : Nat) (hk : 0 < k) :
    (∀ c ∈ kfoldTestChunks n k seed, c.Nodup) ∧
      (kfoldTestChunks n k seed).Pairwise List.Disjoint := by
  have h : (kfoldTestChunks n k seed).flatten.Nodup := by
    rw [kfoldTestChunks_flatten n k seed hk]
    exact shuffle_nodup seed n

  exact List.nodup_flatten.mp h

theorem mem_chunk_lt (n k seed j i : Nat) (hk : 0 < k)
    (hi : i ∈ (kfoldTestChunks n k seed).getD j []) : i < n := by
  by_cases hj : j < (kfoldTestChunks n k seed).length
  · have hmem : i ∈ (kfoldTestChunks n k seed).flatten := by
      rw [List.mem_flatten]
      refine ⟨(kfoldTestChunks n k seed).getD j [], ?_, hi⟩
      rw [List.getD_eq_getElem _ _ hj]
      exact List.getElem_mem hj
    rw [kfoldTestChunks_flatten n k seed hk, mem_shuffle] at hmem
    exact hmem
  · rw [List.getD_eq_default _ _ (Nat.le_of_not_lt hj)] at hi
    simp at hi

theorem mem_kfTest (n k seed j i : Nat) :
    i ∈ kfTest n k seed j ↔ i < n ∧ i ∈ (kfoldTestChunks n k seed).getD j [] := by
  simp [kfTest]

theorem mem_kfTrain (n k seed j i : Nat) :
    i ∈ kfTrain n k seed j ↔ i < n ∧ i ∉ (kfoldTestChunks n k seed).getD j [] := by
  simp [kfTrain]

theorem kfTest_perm_chunk (n k seed j : Nat) (hk : 0 < k) (hj : j < k) :
    (kfTest n k seed j).Perm ((kfoldTestChunks n k seed).getD j []) := by
  have hlen : j < (kfoldTestChunks n k seed).length := by
    rw [kfoldTestChunks_length]; exact hj
  have hchunknd : ((kfoldTestChunks n k seed).getD j []).Nodup := by
    have := (kfoldTestChunks_nodup_disjoint n k seed hk).1
    apply this
    rw [List.getD_eq_getElem _ _ hlen]
    exact List.getElem_mem hlen
  have htestnd : (kfTest n k seed j).Nodup :=
    List.Nodup.filter _ (List.nodup_range _)
  rw [List.perm_ext_iff_of_nodup htestnd hchunknd]
  intro a
  rw [mem_kfTest]
  constructor
  · exact fun h => h.2
  · intro h
    exact ⟨mem_chunk_lt n k seed j a hk h, h⟩

theorem kfTest_length (n k seed j : Nat) (hk : 0 < k) (hkn : k ≤ n) (hj : j < k) :
    (kfTest n k seed j).length = n / k + (if j < n % k then 1 else 0) := by
  rw [(kfTest_perm_chunk n k seed j hk hj).length_eq]
  rw [kfoldTestChunks, chunksAux_getD_length]
  · have hj2 : j < (foldSizes n k).length := by rw [foldSizes_length]; exact hj
    rw [List.getD_eq_getElem _ _ hj2]
    simp [foldSizes]
  · rw [foldSizes_length]; exact hj
  · rw [foldSizes_sum n k hk, shuffle_length]

theorem filter_not_length (p : Nat → Bool) (l : List Nat) :
    (l.filter p).length + (l.filter (fun a => !(p a))).length = l.length := by
  induction l with
  | nil => simp
  | cons a t ih =>
    cases hp : p a
    · simp [hp]
      omega
    · simp [hp]
      omega

theorem kfTrain_length_add (n k seed j : Nat) :
    (kfTest n k seed j).length + (kfTrain n k seed j).length = n := by
  simp only [kfTest, kfTrain, decide_not]
  have h := filter_not_length
    (fun i => decide (i ∈ ((kfoldTestChunks n k seed).getD j []))) (List.range n)
  rw [List.length_range] at h
  exact h

theorem kfold_exists_test (n k seed i : Nat) (hk : 0 < k) (hi : i < n) :
    ∃ j, j < k ∧ i ∈ kfTest n k seed j := by
  have hmem : i ∈ (kfoldTestChunks n k seed).flatten := by
    rw [kfoldTestChunks_flatten n k seed hk, mem_shuffle]
    exact hi
  rw [List.mem_flatten] at hmem
  obtain ⟨c, hc, hic⟩ := hmem
  rw [List.mem_iff_getElem] at hc
  obtain ⟨j, hjlen, hcj⟩ := hc
  refine ⟨j, ?_, ?_⟩
  · rw [kfoldTestChunks_length] at hjlen
    exact hjlen
  · rw [mem_kfTest]
    refine ⟨hi, ?_⟩
    rw [List.getD_eq_getElem _ _ hjlen, hcj]
    exact hic

theorem kfold_test_disjoint (n k seed i j1 j2 : Nat) (hk : 0 < k)
    (hj1 : j1 < k) (hj2 : j2 < k) (hne : j1 ≠ j2)
    (h1 : i ∈ kfTest n k seed j1) : i ∉ kfTest n k seed j2 := by
  intro h2
  have hpw := (kfoldTestChunks_nodup_disjoint n k seed hk).2
  rw [List.pairwise_iff_getElem] at hpw
  have hl1 : j1 < (kfoldTestChunks n k seed).length := by
    rw [kfoldTestChunks_length]; exact hj1
  have hl2 : j2 < (kfoldTestChunks n k seed).length := by
    rw [kfoldTestChunks_length]; exact hj2
  rw [mem_kfTest] at h1 h2
  have hm1 := h1.2
  have hm2 := h2.2
  rw [List.getD_eq_getElem _ _ hl1] at hm1
  rw [List.getD_eq_getElem _ _ hl2] at hm2
  rcases Nat.lt_or_ge j1 j2 with hlt | hge
  · exact (hpw j1 j2 hl1 hl2 hlt) hm1 hm2
  · have hlt2 : j2 < j1 := by omega
    exact (hpw j2 j1 hl2 hl1 hlt2) hm2 hm1

/-- Number of held-out samples of `train_test_split(..., test_size=0.2)`:
sklearn takes `ceil(0.2 * n)`. -/
def ttsTestSize (n : Nat) : Nat := (n + 4) / 5

/-- Test indices of the single split: the first `ttsTestSize n` entries of
the seeded permutation. -/
def ttsTestIdx (n seed : Nat) : List Nat := (shuffle seed n).take (ttsTestSize n)

/-- Train indices of the single split: the remaining entries of the seeded
permutation. -/
def ttsTrainIdx (n seed : Nat) : List Nat := (shuffle seed n).drop (ttsTestSize n)

/-- Column mean, as `StandardScaler.fit` computes it over every row it is
given. -/
def colMean (c : List ℚ) : ℚ := c.sum / c.length

/-- Column variance (population variance, `ddof=0`), again over every row
the scaler is fitted on. -/
def colVar (c : List ℚ) : ℚ := (c.map (fun x => (x - colMean c) ^ 2)).sum / c.length

/-- Model of `StandardScaler().fit_transform(c)`: every entry is centred by the mean
and divided by the standard deviation of the column it came from. -/
noncomputable def standardize (c : List ℚ) : List ℝ :=
  c.map (fun x => ((x - colMean c : ℚ) : ℝ) / Real.sqrt ((colVar c : ℚ) : ℝ))

/-- The scaled feature column restricted to the training partition, exactly
as the scripts build it: `X_scaled = scaler.fit_transform(X)` over the whole
matrix first, `train_test_split` on the already-scaled rows afterwards. -/
noncomputable def scaledTrainColumn (seed : Nat) (c : List ℚ) : List ℝ :=
  (ttsTrainIdx c.length seed).map (fun i => (standardize c).getD i 0)

/-- Arithmetic mean of a list of rationals (0 on the empty list, as the
division by the length is a division by zero there). -/
def listMean (l : List ℚ) : ℚ := l.sum / l.length

/-- Model of `mean_squared_error(y_true, y_pred)`. -/
def mseQ (yt yp : List ℚ) : ℚ := listMean (List.zipWith (fun a b => (a - b) ^ 2) yt yp)

/-- Model of `mean_absolute_error(y_true, y_pred)`. -/
def maeQ (yt yp : List ℚ) : ℚ := listMean (List.zipWith (fun a b => |a - b|) yt yp)

/-- Residual sum of squares. -/
def ssRes (yt yp : List ℚ) : ℚ := (List.zipWith (fun a b => (a - b) ^ 2) yt yp).sum

/-- Total sum of squares about the mean of `y_true`. -/
def ssTot (yt : List ℚ) : ℚ := (yt.map (fun a => (a - listMean yt) ^ 2)).sum

/-- Model of `r2_score(y_true, y_pred) = 1 - SS_res / SS_tot` (the quotient is the
rational-division convention, 0 when `SS_tot` is 0). -/
def r2Q (yt yp : List ℚ) : ℚ := 1 - ssRes yt yp / ssTot yt

/-- Model of `np.sqrt(mean_squared_error(y_true, y_pred))`. -/
noncomputable def rmse (yt yp : List ℚ) : ℝ := Real.sqrt ((mseQ yt yp : ℚ) : ℝ)

/-- One row of the `metrics` dictionary: the six values appended per fold. -/
structure FoldMetrics where
  train_rmse : ℝ
  test_rmse : ℝ
  train_r2 : ℚ
  test_r2 : ℚ
  train_mae : ℚ
  test_mae : ℚ

/-- The keys of the `metrics` dictionary in insertion order; the exported
`results_df` has exactly these columns. -/
def metricColumns : List String :=
  ["train_rmse", "test_rmse", "train_r2", "test_r2", "train_mae", "test_mae"]

/-- An opaque backend regressor (CatBoost / AdaBoost / LGBM): fitting on the
rows at the given train indices either raises (an `Except.error`, since the
scripts install no exception handler) or returns a predictor sending row
indices to predicted targets. -/
def Backend : Type := List Nat → Except String (List Nat → List ℚ)

/-- The targets at a list of row indices, `y.iloc[index]`. -/
def yAt (y : List ℚ) (idx : List Nat) : List ℚ := idx.map (fun i => y.getD i 0)

/-- The body of the evaluation loop for one fold: fit on the train rows of
the fold, predict on train and test rows, compute the six metrics. -/
noncomputable def evalFold (y : List ℚ) (fit : Backend) (tr te : List Nat) :
    Except String FoldMetrics := do
  let predict ← fit tr
  pure { train_rmse := rmse (yAt y tr) (predict tr)
         test_rmse := rmse (yAt y te) (predict te)
         train_r2 := r2Q (yAt y tr) (predict tr)
         test_r2 := r2Q (yAt y te) (predict te)
         train_mae := maeQ (yAt y tr) (predict tr)
         test_mae := maeQ (yAt y te) (predict te) }

/-- Run the loop body over a list of `(train_index, test_index)` pairs,
appending one metric record per fold; an uncaught exception anywhere
propagates out, as in the Python. -/
noncomputable def runFolds (y : List ℚ) (fit : Backend) :
    List (List Nat × List Nat) → Except String (List FoldMetrics)
  | [] => Except.ok []
  | p :: rest => do
      let m ← evalFold y fit p.1 p.2
      let ms ← runFolds y fit rest
      pure (m :: ms)

/-- The arguments the scripts construct their `KFold` object with. -/
structure KFoldSpec where
  n_splits : Nat
  shuffled : Bool
  random_state : Nat

/-- The object `kf = KFold(n_splits=5, shuffle=True, random_state=1)` — constructed
once, before the repetition loop. -/
def kf : KFoldSpec := ⟨5, true, 1⟩

/-- Model of `kf.split(X_scaled)`: every call re-derives the permutation from the
stored `random_state` (the scripts always pass `shuffle=True`, which this
models). -/
def KFoldSpec.split (s : KFoldSpec) (n : Nat) : List (List Nat × List Nat) :=
  kfoldSplit n s.n_splits s.random_state

/-- The sequence of partitions consumed by
`for i in range(R): for train_index, test_index in kf.split(X_scaled): ...`:
entry `r` is what `kf.split` returns on the `r`-th repetition. -/
def splitCalls (s : KFoldSpec) (R n : Nat) : List (List (List Nat × List Nat)) :=
  (List.range R).map (fun _ => s.split n)

/-- The whole evaluation loop: all repetitions flattened in execution order,
metric records appended fold by fold. -/
noncomputable def evaluationLoop (s : KFoldSpec) (fit : Backend) (y : List ℚ)
    (n R : Nat) : Except String (List FoldMetrics) :=
  runFolds y fit (splitCalls s R n).flatten

/-- The arguments of the three `BayesSearchCV` constructor calls. -/
structure BayesSearchConfig where
  n_iter : Nat
  scoring : String
  cv : Nat
  random_state : Option Nat

/-- The call `BayesSearchCV(estimator=catboost_model, search_spaces=param_spaces,
n_iter=32, scoring=neg_mean_squared_error, cv=5)` — no `random_state`
argument is passed (src/unnamed/part_000). -/
def catboostSearch : BayesSearchConfig := ⟨32, "neg_mean_squared_error", 5, none⟩

/-- The call in the AdaBoost notebook: identical, also without `random_state`. -/
def adaSearch : BayesSearchConfig := ⟨32, "neg_mean_squared_error", 5, none⟩

/-- The call in the LGBM notebook: `BayesSearchCV(..., cv=5, random_state=1)`. -/
def lgbmSearch : BayesSearchConfig := ⟨32, "neg_mean_squared_error", 5, some 1⟩

/-- The optimizer constructor calls of the three backends. -/
def backendSearchConfigs : List BayesSearchConfig :=
  [catboostSearch, adaSearch, lgbmSearch]

/-- One optimizer run, abstracted over the library internals: the selected
best configuration is a deterministic function (`lcg` here) of the effective
seed that `check_random_state` hands the optimizer — the explicit
`random_state` when one was passed, the ambient global-generator state
otherwise, which the run then consumes and advances. -/
def optimizeRun (cfg : BayesSearchConfig) (g : Nat) : Nat × Nat :=
  match cfg.random_state with
  | some s => (lcg s, g)
  | none => (lcg g, lcg g)

/-- The `check_random_state` semantics: an explicit integer seed yields a fresh
generator seeded with it, `None` continues the ambient global stream. -/
def effectiveSeed : Option Nat → Nat → Nat
  | some s, _ => s
  | none, g => g

/-- One `KFold.split` call together with the global-generator state it
leaves behind: an explicit `random_state` leaves the global stream untouched
and the partition depends only on `(n, k, seed)`. -/
def kfoldSplitCall (n k : Nat) (rs : Option Nat) (g : Nat) :
    List (List Nat × List Nat) × Nat :=
  (kfoldSplit n k (effectiveSeed rs g),
   match rs with
   | some _ => g
   | none => lcg g)

/-- The one mutable model object (`catboost_optimized`): its state is the
training data it was last fitted on, since each sklearn-style `fit` call
retrains the same object from scratch in place. -/
inductive ModelState
  | unfitted : ModelState
  | fitted : List Nat → ModelState
deriving DecidableEq

/-- State of `catboost_optimized` after
`catboost_optimized.fit(X_train, y_train)`, the refit on the single-split
training partition. -/
def afterRefit (n tseed : Nat) : ModelState := ModelState.fitted (ttsTrainIdx n tseed)

/-- The train-index lists passed to `catboost_optimized.fit` inside the
evaluation loop, in execution order. -/
def loopFitCalls (s : KFoldSpec) (R n : Nat) : List (List Nat) :=
  ((splitCalls s R n).map (fun part => part.map Prod.fst)).flatten

/-- The state of the model object once the loop has finished: every `fit` call
overwrote the same object in place, so the last call wins. -/
def afterLoop (s : KFoldSpec) (R n tseed : Nat) : ModelState :=
  (loopFitCalls s R n).foldl (fun _ tr => ModelState.fitted tr) (afterRefit n tseed)

/-- The explainer `shap.TreeExplainer(catboost_optimized)` is constructed from the very
same object, after the loop has finished. -/
def shapExplainerModel (s : KFoldSpec) (R n tseed : Nat) : ModelState :=
  afterLoop s R n tseed

theorem kfoldSplit_length (n k seed : Nat) : (kfoldSplit n k seed).length = k := by
  simp [kfoldSplit]

theorem sum_map_const (R c : Nat) : ((List.range R).map (fun _ => c)).sum = R * c := by
  induction R with
  | zero => simp
  | succ m ih =>
    rw [List.range_succ]
    simp [ih]
    ring

theorem zipWith_self_sum_zero (f : ℚ → ℚ → ℚ) (hf : ∀ a, f a a = 0) (y : List ℚ) :
    (List.zipWith f y y).sum = 0 := by
  induction y with
  | nil => simp
  | cons a t ih => simp [hf, ih]

theorem ssTot_ne_zero_of_nonconstant (y : List ℚ) (h : ∃ a ∈ y, ∃ b ∈ y, a ≠ b) :
    ssTot y ≠ 0 := by
  intro h0
  obtain ⟨a, ha, b, hb, hab⟩ := h
  have hnn : ∀ x ∈ y.map (fun v => (v - listMean y) ^ 2), 0 ≤ x := by
    intro x hx
    obtain ⟨v, _, hv⟩ := List.mem_map.mp hx
    rw [← hv]
    exact sq_nonneg _
  have hmean : ∀ v ∈ y, v = listMean y := by
    intro v hv
    have hle : (v - listMean y) ^ 2 ≤ ssTot y :=
      List.single_le_sum hnn _ (List.mem_map_of_mem _ hv)
    have hge : 0 ≤ (v - listMean y) ^ 2 := sq_nonneg _
    have heq : (v - listMean y) ^ 2 = 0 := le_antisymm (h0 ▸ hle) hge
    have := (pow_eq_zero_iff (two_ne_zero)).mp heq
    linarith [sub_eq_zero.mp this]
  exact hab ((hmean a ha).trans (hmean b hb).symm)

/-- C1: the `KFold` object of the evaluation loop is constructed once with
`random_state=1`, and `split` re-derives the same permutation from that
stored seed on every call, so the partition consumed at any two repetitions
is identical — there is no dependence on the repetition index at all, and the
claimed pair of repetitions with differing partitions does not exist. -/
theorem partition_identical_across_repetitions (n R r1 r2 : Nat)
    (h1 : r1 < R) (h2 : r2 < R) :
    (splitCalls kf R n).getD r1 [] = (splitCalls kf R n).getD r2 [] := by
  have hl : (splitCalls kf R n).length = R := by simp [splitCalls]
  rw [List.getD_eq_getElem _ _ (by rw [hl]; exact h1),
    List.getD_eq_getElem _ _ (by rw [hl]; exact h2)]
  simp [splitCalls]

/-- Witness for C1 at the values the source uses: 1000 repetitions, repetitions 0
and 1 receive the same partition of 100 samples. -/
theorem partition_identical_across_repetitions_witness :
    0 < 1000 ∧ 1 < 1000
    ∧ (splitCalls kf 1000 100).getD 0 [] = (splitCalls kf 1000 100).getD 1 [] :=
  ⟨by decide, by decide,
    partition_identical_across_repetitions 100 1000 0 1 (by decide) (by decide)⟩

theorem runFolds_ok_length (y : List ℚ) (fit : Backend)
    (hok : ∀ tr, ∃ p, fit tr = Except.ok p) :
    ∀ ps : List (List Nat × List Nat),
      ∃ ms, runFolds y fit ps = Except.ok ms ∧ ms.length = ps.length := by
  intro ps
  induction ps with
  | nil => exact ⟨[], rfl, rfl⟩
  | cons p rest ih =>
    obtain ⟨pr, hpr⟩ := hok p.1
    obtain ⟨ms, hms, hlen⟩ := ih
    cases hev : evalFold y fit p.1 p.2 with
    | error e =>
      simp [evalFold, hpr] at hev
    | ok m =>
      refine ⟨m :: ms, ?_, by simp [hlen]⟩
      rw [runFolds, hev, hms]
      rfl

/-- C2: with `repetitions=R` and a `KFold` of `k` splits on `n ≥ k` samples,
if no fit call raises then the loop returns exactly `R * k` metric
records, and the exported table carries the six metric names as columns in the
order the `metrics` dictionary declares them. -/
theorem repeatedCV_record_count (k seed R n : Nat) (y : List ℚ) (fit : Backend)
    (hk : 0 < k) (hkn : k ≤ n) (hok : ∀ tr, ∃ p, fit tr = Except.ok p) :
    (∃ ms, evaluationLoop ⟨k, true, seed⟩ fit y n R = Except.ok ms
      ∧ ms.length = R * k)
    ∧ metricColumns
      = ["train_rmse", "test_rmse", "train_r2", "test_r2", "train_mae", "test_mae"] := by
  constructor
  · obtain ⟨ms, hms, hlen⟩ :=
      runFolds_ok_length y fit hok (splitCalls ⟨k, true, seed⟩ R n).flatten
    refine ⟨ms, hms, ?_⟩
    rw [hlen, List.length_flatten]
    have hmap : (splitCalls ⟨k, true, seed⟩ R n).map List.length
        = (List.range R).map (fun _ => k) := by
      simp [splitCalls, KFoldSpec.split, List.map_map, Function.comp,
        kfoldSplit_length]
    rw [hmap, sum_map_const]
  · rfl

/-- A trivial always-succeeding backend, used to instantiate witnesses. -/
def constBackend : Backend := fun _ => Except.ok (fun idx => idx.map (fun _ => 0))

/-- Witness for C2: 3 repetitions of 5 folds over 100 samples give 15
records. -/
theorem repeatedCV_record_count_witness :
    (0 < 5 ∧ 5 ≤ 100)
    ∧ ((∃ ms, evaluationLoop ⟨5, true, 1⟩ constBackend [] 100 3 = Except.ok ms
          ∧ ms.length = 3 * 5)
        ∧ metricColumns
          = ["train_rmse", "test_rmse", "train_r2", "test_r2", "train_mae", "test_mae"]) :=
  ⟨⟨by decide, by decide⟩,
    repeatedCV_record_count 5 1 3 100 [] constBackend (by decide) (by decide)
      (fun _ => ⟨_, rfl⟩)⟩

/-- C5 counterexample: the claim quantifies over every backend, but the
CatBoost `BayesSearchCV` call passes no `random_state`, so its
candidate sampling draws from the ambient global generator: two runs with
identical arguments from different ambient states select different best
configurations. -/
theorem optimizer_seeding_counterexample :
    catboostSearch ∈ backendSearchConfigs
    ∧ catboostSearch.random_state = none
    ∧ (optimizeRun catboostSearch 0).1 ≠ (optimizeRun catboostSearch 1).1 := by
  refine ⟨by simp [backendSearchConfigs], rfl, by decide⟩

/-- C5 amended: only the LGBM notebook passes `random_state=1` to
`BayesSearchCV`, and that optimizer is deterministic in its arguments alone;
the CatBoost and AdaBoost calls pass no `random_state`, and their outcome
depends on the ambient global generator state. -/
theorem optimizer_seeding_per_backend :
    lgbmSearch.random_state = some 1
    ∧ (∀ g1 g2 : Nat, (optimizeRun lgbmSearch g1).1 = (optimizeRun lgbmSearch g2).1)
    ∧ catboostSearch.random_state = none
    ∧ adaSearch.random_state = none
    ∧ (∃ g1 g2 : Nat, (optimizeRun catboostSearch g1).1 ≠ (optimizeRun catboostSearch g2).1) :=
  ⟨rfl, fun _ _ => rfl, rfl, rfl, ⟨0, 1, by decide⟩⟩

/-- C6: `KFold.split` with an explicit `random_state` re-derives its
permutation from that seed on every call, independently of the ambient
global generator state, so two calls with identical `(n, k, seed)` return
identical sequences of `(train_index, test_index)` pairs. -/
theorem kfold_split_deterministic (n k s g1 g2 : Nat) :
    (kfoldSplitCall n k (some s) g1).1 = (kfoldSplitCall n k (some s) g2).1 := rfl

/-- C8: on a non-constant target evaluated against itself, rmse and mae are
0 and R² is 1 (and the R² denominator `SS_tot` is genuinely nonzero, so no
degenerate-input convention is involved). -/
theorem evaluate_identity_metrics (y : List ℚ) (h : ∃ a ∈ y, ∃ b ∈ y, a ≠ b) :
    rmse y y = 0 ∧ maeQ y y = 0 ∧ r2Q y y = 1 ∧ ssTot y ≠ 0 := by
  have hmse : mseQ y y = 0 := by
    rw [mseQ, listMean, zipWith_self_sum_zero _ (fun a => by ring)]
    simp
  have hmae : maeQ y y = 0 := by
    rw [maeQ, listMean, zipWith_self_sum_zero _ (fun a => by simp)]
    simp
  have hres : ssRes y y = 0 := by
    rw [ssRes, zipWith_self_sum_zero _ (fun a => by ring)]
  refine ⟨?_, hmae, ?_, ssTot_ne_zero_of_nonconstant y h⟩
  · rw [rmse, hmse]
    simp
  · rw [r2Q, hres]
    simp

/-- Witness for C8 at `y = [1, 2]`. -/
theorem evaluate_identity_metrics_witness :
    (∃ a ∈ ([1, 2] : List ℚ), ∃ b ∈ ([1, 2] : List ℚ), a ≠ b)
    ∧ (rmse [1, 2] [1, 2] = 0 ∧ maeQ [1, 2] [1, 2] = 0
        ∧ r2Q [1, 2] [1, 2] = 1 ∧ ssTot [1, 2] ≠ 0) :=
  ⟨⟨1, by decide, 2, by decide, by decide⟩,
    evaluate_identity_metrics [1, 2] ⟨1, by decide, 2, by decide, by decide⟩⟩

/-- C7: every K-fold partition has pairwise disjoint test sets whose union
is exactly the index range `0..n-1`, each index lying in exactly one test
set, and fold `j` has `n/k` test indices (plus one for the first `n mod k`
folds) and the complementary number of train indices. -/
theorem kfold_partition_properties (n k seed : Nat) (hk : 0 < k) (hkn : k ≤ n) :
    (∀ j1 j2, j1 < k → j2 < k → j1 ≠ j2 →
        ∀ i, i ∈ kfTest n k seed j1 → i ∉ kfTest n k seed j2)
    ∧ (∀ i, i < n ↔ ∃ j, j < k ∧ i ∈ kfTest n k seed j)
    ∧ (∀ i, i < n → ∃! j, j < k ∧ i ∈ kfTest n k seed j)
    ∧ (∀ j, j < k →
        (kfTest n k seed j).length = n / k + (if j < n % k then 1 else 0)
        ∧ (kfTrain n k seed j).length
          = n - (n / k + (if j < n % k then 1 else 0))) := by
  refine ⟨?_, ?_, ?_, ?_⟩
  · intro j1 j2 hj1 hj2 hne i h1
    exact kfold_test_disjoint n k seed i j1 j2 hk hj1 hj2 hne h1
  · intro i
    constructor
    · intro hi
      exact kfold_exists_test n k seed i hk hi
    · rintro ⟨j, _, hij⟩
      exact ((mem_kfTest n k seed j i).mp hij).1
  · intro i hi
    obtain ⟨j, hj, hij⟩ := kfold_exists_test n k seed i hk hi
    refine ⟨j, ⟨hj, hij⟩, ?_⟩
    rintro j2 ⟨hj2, hij2⟩
    by_contra hne
    exact kfold_test_disjoint n k seed i j2 j hk hj2 hj hne hij2 hij
  · intro j hj
    refine ⟨kfTest_length n k seed j hk hkn hj, ?_⟩
    have hadd := kfTrain_length_add n k seed j
    rw [kfTest_length n k seed j hk hkn hj] at hadd
    omega

/-- Witness for C7 at `n=100, k=5, seed=1`: fold 0 has 20 test and 80 train
indices. -/
theorem kfold_partition_properties_witness :
    (0 < 5 ∧ 5 ≤ 100)
    ∧ (kfTest 100 5 1 0).length = 20 ∧ (kfTrain 100 5 1 0).length = 80 := by
  have h := (kfold_partition_properties 100 5 1 (by decide) (by decide)).2.2.2 0
    (by decide)
  refine ⟨⟨by decide, by decide⟩, ?_, ?_⟩
  · rw [h.1]
    decide
  · rw [h.2]
    decide

/-- C9: the evaluation loop calls `kf.split(X_scaled)` on the full scaled
dataset; at every repetition the partition it consumes is the full-range
partition, whose test sets cover all `n` samples, and every sample the
single train/test split held out appears among the train indices of some
fold. -/
theorem kfold_covers_full_dataset (n k seed tseed R r : Nat)
    (hk : 2 ≤ k) (hkn : k ≤ n) (hr : r < R) :
    (splitCalls ⟨k, true, seed⟩ R n).getD r [] = kfoldSplit n k seed
    ∧ (∀ i, i < n ↔ ∃ j, j < k ∧ i ∈ kfTest n k seed j)
    ∧ (∀ i ∈ ttsTestIdx n tseed, ∃ j, j < k ∧ i ∈ kfTrain n k seed j) := by
  have hk0 : 0 < k := by omega
  refine ⟨?_, ?_, ?_⟩
  · have hl : (splitCalls ⟨k, true, seed⟩ R n).length = R := by simp [splitCalls]
    rw [List.getD_eq_getElem _ _ (by rw [hl]; exact hr)]
    simp [splitCalls, KFoldSpec.split]
  · intro i
    constructor
    · intro hi
      exact kfold_exists_test n k seed i hk0 hi
    · rintro ⟨j, _, hij⟩
      exact ((mem_kfTest n k seed j i).mp hij).1
  · intro i hmem
    have hin : i < n := by
      have hsh : i ∈ shuffle tseed n := List.mem_of_mem_take hmem
      rwa [mem_shuffle] at hsh
    obtain ⟨j0, hj0, hij0⟩ := kfold_exists_test n k seed i hk0 hin
    refine ⟨if j0 = 0 then 1 else 0, ?_, ?_⟩
    · by_cases h0 : j0 = 0 <;> simp [h0] <;> omega
    · have hne : j0 ≠ if j0 = 0 then 1 else 0 := by
        by_cases h0 : j0 = 0 <;> simp [h0]
      have hjk : (if j0 = 0 then 1 else 0) < k := by
        by_cases h0 : j0 = 0 <;> simp [h0] <;> omega
      have hnot := kfold_test_disjoint n k seed i j0 _ hk0 hj0 hjk hne hij0
      rw [mem_kfTest] at hnot
      rw [mem_kfTrain]
      exact ⟨hin, fun hchunk => hnot ⟨hin, hchunk⟩⟩

/-- Witness for C9 at the parameters the source uses. -/
theorem kfold_covers_full_dataset_witness :
    (2 ≤ 5 ∧ 5 ≤ 100 ∧ 0 < 1000)
    ∧ ((splitCalls ⟨5, true, 1⟩ 1000 100).getD 0 [] = kfoldSplit 100 5 1
        ∧ (∀ i, i < 100 ↔ ∃ j, j < 5 ∧ i ∈ kfTest 100 5 1 j)
        ∧ (∀ i ∈ ttsTestIdx 100 1, ∃ j, j < 5 ∧ i ∈ kfTrain 100 5 1 j)) :=
  ⟨⟨by decide, by decide, by decide⟩,
    kfold_covers_full_dataset 100 5 1 1 1000 0 (by decide) (by decide) (by decide)⟩

theorem runFolds_head_error (y : List ℚ) (fit : Backend) (tr te : List Nat)
    (rest : List (List Nat × List Nat)) (e : String)
    (hfit : fit tr = Except.error e) :
    runFolds y fit ((tr, te) :: rest) = Except.error e := by
  rw [runFolds]
  simp [evalFold, hfit]
  rfl

theorem splitCalls_flatten_head (s : KFoldSpec) (R n : Nat)
    (hR : 0 < R) (hk : 0 < s.n_splits) :
    ∃ rest, (splitCalls s R n).flatten
      = (kfTrain n s.n_splits s.random_state 0,
          kfTest n s.n_splits s.random_state 0) :: rest := by
  obtain ⟨m, rfl⟩ : ∃ m, R = m + 1 := ⟨R - 1, by omega⟩
  obtain ⟨t, ht⟩ : ∃ t, s.n_splits = t + 1 := ⟨s.n_splits - 1, by omega⟩
  rw [ht]
  simp only [splitCalls, KFoldSpec.split, kfoldSplit, ht]
  rw [List.range_succ_eq_map m]
  simp only [List.map_cons, List.flatten_cons]
  rw [List.range_succ_eq_map t]
  simp only [List.map_cons, List.cons_append]
  exact ⟨_, rfl⟩

/-- A backend that raises exactly on the train rows of fold 0 of the
CatBoost partition and fits fine on every other fold. -/
def oneFoldFailBackend : Backend := fun tr =>
  if tr = kfTrain 100 5 1 0 then Except.error "boom"
  else Except.ok (fun idx => idx.map (fun _ => 0))

/-- C4 counterexample: with a single failing fold (fold 0, repetition 0),
the whole 1000-repetition loop returns that error — no metric collection is
produced at all, rather than a collection with one fold excluded and the
other 4999 folds evaluated. -/
theorem fold_failure_aborts_counterexample :
    evaluationLoop kf oneFoldFailBackend [] 100 1000 = Except.error "boom"
    ∧ ∀ ms, evaluationLoop kf oneFoldFailBackend [] 100 1000 ≠ Except.ok ms := by
  obtain ⟨rest, hrest⟩ := splitCalls_flatten_head kf 1000 100 (by decide) (by decide)
  have herr : evaluationLoop kf oneFoldFailBackend [] 100 1000
      = Except.error "boom" := by
    rw [evaluationLoop, hrest]
    apply runFolds_head_error
    simp [oneFoldFailBackend, kf]
  refine ⟨herr, fun ms h => ?_⟩
  rw [herr] at h
  exact Except.noConfusion h

/-- C4 amended: the loop installs no exception handler, so a failure in one
fold propagates: whenever the fit of the first fold raises, the whole run returns
that error — no records are collected and no later fold or repetition is
evaluated, whatever the backend would do there. -/
theorem fold_failure_aborts (k seed R n : Nat) (y : List ℚ) (fit : Backend)
    (e : String) (hR : 0 < R) (hk : 0 < k)
    (hfail : fit (kfTrain n k seed 0) = Except.error e) :
    evaluationLoop ⟨k, true, seed⟩ fit y n R = Except.error e := by
  obtain ⟨rest, hrest⟩ := splitCalls_flatten_head ⟨k, true, seed⟩ R n hR hk
  rw [evaluationLoop, hrest]
  exact runFolds_head_error y fit _ _ rest e hfail

/-- A backend whose fit raises on every fold. -/
def failingBackend : Backend := fun _ => Except.error "fit failed"

/-- Witness for the amended C4. -/
theorem fold_failure_aborts_witness :
    (0 < 2 ∧ 0 < 5
      ∧ failingBackend (kfTrain 10 5 1 0) = Except.error "fit failed")
    ∧ evaluationLoop ⟨5, true, 1⟩ failingBackend [] 10 2
      = Except.error "fit failed" :=
  ⟨⟨by decide, by decide, rfl⟩,
    fold_failure_aborts 5 1 2 10 [] failingBackend "fit failed"
      (by decide) (by decide) rfl⟩

theorem scaledTrain_example1 : scaledTrainColumn 1 [0, 2] = [-1] := by
  have hidx : ttsTrainIdx ([0, 2] : List ℚ).length 1 = [0] := by decide
  rw [scaledTrainColumn, hidx]
  have hm : colMean [0, 2] = 1 := by norm_num [colMean]
  have hv : colVar [0, 2] = 1 := by norm_num [colVar, colMean]
  simp [standardize, hm, hv]

theorem scaledTrain_example2 : scaledTrainColumn 1 [0, -2] = [1] := by
  have hidx : ttsTrainIdx ([0, -2] : List ℚ).length 1 = [0] := by decide
  rw [scaledTrainColumn, hidx]
  have hm : colMean [0, -2] = -1 := by norm_num [colMean]
  have hv : colVar [0, -2] = 1 := by norm_num [colVar, colMean]
  simp [standardize, hm, hv]

/-- C3 counterexample: the scripts run `scaler.fit_transform(X)` on the full
matrix before splitting, so the scaler statistics see the held-out rows: two
datasets that agree on every training-partition row but differ in a
test-partition row produce different scaled training features. -/
theorem scaling_leakage_counterexample :
    (∀ i ∈ ttsTrainIdx ([0, 2] : List ℚ).length 1,
        ([0, 2] : List ℚ).getD i 0 = ([0, -2] : List ℚ).getD i 0)
    ∧ ([0, 2] : List ℚ).length = ([0, -2] : List ℚ).length
    ∧ scaledTrainColumn 1 [0, 2] ≠ scaledTrainColumn 1 [0, -2] := by
  refine ⟨by decide, by decide, ?_⟩
  rw [scaledTrain_example1, scaledTrain_example2]
  intro heq
  simp only [List.cons.injEq, and_true] at heq
  norm_num at heq

/-- C3 amended: scaling statistics (column mean and variance) are fitted on
the full dataset before the split, every scaled training feature is
`(x - mean of all rows) / std of all rows`, and changing a test-partition
row can change the scaled training features handed to the backend. -/
theorem scaling_fit_on_full_data (seed : Nat) (c : List ℚ) :
    scaledTrainColumn seed c = (ttsTrainIdx c.length seed).map
      (fun i => ((c.getD i 0 - colMean c : ℚ) : ℝ) / Real.sqrt ((colVar c : ℚ) : ℝ))
    ∧ ∃ c1 c2 : List ℚ, c1.length = c2.length
        ∧ (∀ i ∈ ttsTrainIdx c1.length 1, c1.getD i 0 = c2.getD i 0)
        ∧ scaledTrainColumn 1 c1 ≠ scaledTrainColumn 1 c2 := by
  constructor
  · rw [scaledTrainColumn]
    apply List.map_congr_left
    intro i hi
    have hlt : i < c.length := by
      have hsh : i ∈ shuffle seed c.length := List.mem_of_mem_drop hi
      rwa [mem_shuffle] at hsh
    rw [standardize,
      List.getD_eq_getElem _ _ (by rw [List.length_map]; exact hlt),
      List.getElem_map, List.getD_eq_getElem _ _ hlt]
  · refine ⟨[0, 2], [0, -2], by decide, by decide, ?_⟩
    rw [scaledTrain_example1, scaledTrain_example2]
    intro heq
    simp only [List.cons.injEq, and_true] at heq
    norm_num at heq

theorem foldl_overwrite {α β : Type} (f : α → β) :
    ∀ (l : List α) (a : α) (init : β),
      (a :: l).foldl (fun _ x => f x) init = f (l.getLastD a) := by
  intro l
  induction l with
  | nil =>
    intro a init
    simp [List.getLastD]
  | cons b u ih =>
    intro a init
    rw [List.foldl_cons, ih b (f a), List.getLastD_cons]

theorem foldl_overwrite_ne_nil {α β : Type} (f : α → β) (l : List α) (d : α)
    (init : β) (h : l ≠ []) :
    l.foldl (fun _ x => f x) init = f (l.getLastD d) := by
  cases l with
  | nil => simp at h
  | cons a u =>
    rw [foldl_overwrite, List.getLastD_cons]

theorem map_range_getLastD {α : Type} (g : Nat → α) (t : Nat) (d : α) :
    ((List.range (t + 1)).map g).getLastD d = g t := by
  rw [List.range_succ, List.map_append]
  simp

/-- C10: every `fit` inside the evaluation loop retrains the single
`catboost_optimized` object in place, so after the loop the object holds the
state trained on the last fold of the last repetition; the SHAP explainer is
constructed from exactly that object, and whenever the training rows of that fold
differ from the single-split training rows it is not looking at the
single-split refit. -/
theorem shap_sees_last_fold_model (k seed tseed n R : Nat)
    (hk : 0 < k) (hR : 0 < R) :
    afterLoop ⟨k, true, seed⟩ R n tseed
      = ModelState.fitted (kfTrain n k seed (k - 1))
    ∧ shapExplainerModel ⟨k, true, seed⟩ R n tseed
      = ModelState.fitted (kfTrain n k seed (k - 1))
    ∧ (kfTrain n k seed (k - 1) ≠ ttsTrainIdx n tseed →
        shapExplainerModel ⟨k, true, seed⟩ R n tseed ≠ afterRefit n tseed) := by
  obtain ⟨m, rfl⟩ : ∃ m, R = m + 1 := ⟨R - 1, by omega⟩
  obtain ⟨t, rfl⟩ : ∃ t, k = t + 1 := ⟨k - 1, by omega⟩
  have hfits : loopFitCalls ⟨t + 1, true, seed⟩ (m + 1) n
      = (((List.range m).map
            (fun _ => (kfoldSplit n (t + 1) seed).map Prod.fst)).flatten)
        ++ (List.range (t + 1)).map (fun j => kfTrain n (t + 1) seed j) := by
    rw [loopFitCalls, splitCalls]
    rw [List.range_succ, List.map_append, List.map_append, List.flatten_append]
    simp [KFoldSpec.split, kfoldSplit, List.map_map, Function.comp]
  have hmain : afterLoop ⟨t + 1, true, seed⟩ (m + 1) n tseed
      = ModelState.fitted (kfTrain n (t + 1) seed t) := by
    rw [afterLoop, hfits, List.foldl_append]
    rw [foldl_overwrite_ne_nil ModelState.fitted _ (kfTrain n (t + 1) seed 0) _
      (by simp)]
    rw [map_range_getLastD]
  refine ⟨by simpa using hmain, by simpa [shapExplainerModel] using hmain, ?_⟩
  intro hne heq
  rw [shapExplainerModel, hmain, afterRefit] at heq
  simp only [Nat.add_sub_cancel] at hne
  exact hne (ModelState.fitted.inj heq)

/-- Witness for C10: at `n=10, k=5, seed=1, R=2` the training rows of the
last fold differ from the single-split training rows, so the model of the
SHAP explainer is not the single-split refit. -/
theorem shap_sees_last_fold_model_witness :
    (0 < 5 ∧ 0 < 2 ∧ kfTrain 10 5 1 4 ≠ ttsTrainIdx 10 1)
    ∧ shapExplainerModel ⟨5, true, 1⟩ 2 10 1 ≠ afterRefit 10 1 := by
  have h := shap_sees_last_fold_model 5 1 1 10 2 (by decide) (by decide)
  exact ⟨⟨by decide, by decide, by decide⟩, h.2.2 (by decide)⟩

end BiocharCV
